import Mathlib

/-!
Verification of the company-lookup / batch-enrichment tool
(`pages/1_商工登記資料查詢庫.py`): a shallow embedding of its
name-normalization, match-ranking, resolution-pipeline, detail-fetch and
batch-reconciliation logic, together with theorems settling the spec's
claims about them.

Python strings are modelled as `List Char`; Python dynamic (JSON-shaped)
values as the inductive `PyVal`; the network calls made by the source
adapters and detail endpoints are modelled as oracle functions passed in
as parameters (an `Option` result, where `none` stands for any swallowed
failure: timeout, non-2xx status, or parse error).
-/

namespace DD

/-- Python strings, modelled as lists of characters. -/
abbrev Str := List Char

/-- Coerce a Lean string literal into the `Str` model. -/
def str (s : String) : Str := s.data

/-- Characters stripped by Python `str.strip()` (modelled subset of Unicode
whitespace: ASCII whitespace, NBSP, and the ideographic space U+3000). -/
def pyWhitespace (c : Char) : Bool :=
  c = ' ' || c = '\t' || c = '\n' || c = '\r' || c = '\x0b' || c = '\x0c' ||
  c = '\xa0' || c = '　'

/-- Python `str.strip()`: drop leading and trailing whitespace. -/
def pyStrip (s : Str) : Str :=
  ((s.dropWhile pyWhitespace).reverse.dropWhile pyWhitespace).reverse

/-- `name.replace("（", "(").replace("）", ")")`: full-width parentheses are
replaced by their half-width equivalents (single-character replace). -/
def replaceParens (s : Str) : Str :=
  s.map fun c => if c = '（' then '(' else if c = '）' then ')' else c

/-- The fixed ordered legal-suffix list of `clean_company_name`. -/
def suffixes : List Str :=
  [str "股份有限公司", str "有限公司", str "分公司",
   str "社團法人", str "財團法人", str "有限合夥"]

/-- The suffix scan of `clean_company_name`: the first suffix in list order
that the name ends with is removed (`name[:-len(suffix)]`) and the scan
stops (`break`); if none matches the name is returned unchanged. -/
def removeFirstSuffix : List Str → Str → Str
  | [], s => s
  | suf :: rest, s =>
      if suf.isSuffixOf s then s.take (s.length - suf.length)
      else removeFirstSuffix rest s

/-- `clean_company_name`: strip surrounding whitespace, normalize
full-width parentheses, then remove at most one trailing legal suffix. -/
def clean_company_name (s : Str) : Str :=
  removeFirstSuffix suffixes (replaceParens (pyStrip s))

/-! ### Python dynamic values -/

/-- A JSON-shaped Python value, as handled by the tool: strings, integers,
lists, dicts (insertion-ordered association lists with distinct keys, as
produced by JSON parsing) and `None`. -/
inductive PyVal where
  | str (s : Str)
  | int (n : Int)
  | list (l : List PyVal)
  | dict (d : List (Str × PyVal))
  | none

instance : Inhabited PyVal := ⟨.none⟩

/-- Python truthiness for the modelled values. -/
def pyTruthy : PyVal → Bool
  | .str s => !s.isEmpty
  | .int n => n != 0
  | .list l => !l.isEmpty
  | .dict d => !d.isEmpty
  | .none => false

/-- `d[k]` / `k in d` probe: the value at the first matching key. -/
def dictLookup (d : List (Str × PyVal)) (k : Str) : Option PyVal :=
  (d.find? fun p => p.1 == k).map (·.2)

/-- `d.get(k, dflt)`. -/
def dictGet (d : List (Str × PyVal)) (k : Str) (dflt : PyVal) : PyVal :=
  (dictLookup d k).getD dflt

/-- `d[k] = v` / one key of `d.update(...)`: overwrite in place when the key
exists (its position is kept), otherwise append at the end. -/
def dictSet (d : List (Str × PyVal)) (k : Str) (v : PyVal) : List (Str × PyVal) :=
  if (d.find? fun p => p.1 == k).isSome then
    d.map fun p => if p.1 == k then (p.1, v) else p
  else d ++ [(k, v)]

/-- Decimal digits of a natural number. -/
def natRepr (n : Nat) : Str := (Nat.repr n).data

/-- Decimal rendering of an integer, as Python `str(int)`. -/
def intRepr (n : Int) : Str :=
  if n < 0 then '-' :: natRepr n.natAbs else natRepr n.natAbs

mutual

/-- Python `str(v)` on the modelled values (list/dict rendering is
approximate — element reprs joined by `", "` — and is never relied on by
the theorems below). -/
def pyStrOf : PyVal → Str
  | .str s => s
  | .int n => intRepr n
  | .list l => '[' :: pyStrList l ++ [']']
  | .dict d => '{' :: pyStrDict d ++ ['}']
  | .none => str "None"

def pyStrList : List PyVal → Str
  | [] => []
  | [v] => pyStrOf v
  | v :: rest => pyStrOf v ++ str ", " ++ pyStrList rest

def pyStrDict : List (Str × PyVal) → Str
  | [] => []
  | [(k, v)] => k ++ str ": " ++ pyStrOf v
  | (k, v) :: rest => k ++ str ": " ++ pyStrOf v ++ str ", " ++ pyStrDict rest

end

/-- Parse a non-empty all-ASCII-digit string as a natural number. -/
def parseNat (s : Str) : Option Nat :=
  if s.isEmpty then Option.none
  else if s.all Char.isDigit then
    some (s.foldl (fun a c => a * 10 + (c.toNat - 48)) 0)
  else Option.none

/-- Python `int(str)` (modelled subset: surrounding whitespace, an optional
sign, then ASCII digits; anything else raises, i.e. `none`). -/
def strToInt (s : Str) : Option Int :=
  match pyStrip s with
  | '-' :: rest => (parseNat rest).map fun n => -(n : Int)
  | '+' :: rest => (parseNat rest).map fun n => (n : Int)
  | t => (parseNat t).map fun n => (n : Int)

/-- Python `int(v)` on a modelled value: `none` models a raised exception. -/
def pyIntOf : PyVal → Option Int
  | .int n => some n
  | .str s => strToInt s
  | _ => Option.none

/-- Zero-pad the decimal rendering of a natural number to width `w`. -/
def padNat (w : Nat) (n : Nat) : Str :=
  List.replicate (w - (natRepr n).length) '0' ++ natRepr n

/-- Python `f"{n:0wd}"`: zero-pad to total width `w`, the sign included. -/
def padInt (w : Nat) (n : Int) : Str :=
  if n < 0 then '-' :: padNat (w - 1) n.natAbs else padNat w n.natAbs

/-- `format_date_roc`: a dict date is converted field-by-field with
`int(date_obj.get(k, 0))` (a failed conversion raises, yielding `""`),
the year is offset by 1911 when above 1911, and the result rendered as
`f"{y:03d}年{m:02d}月{d:02d}日"`; a non-dict argument is stringified. -/
def format_date_roc (v : PyVal) : Str :=
  match v with
  | .dict d =>
    match pyIntOf (dictGet d (str "year") (.int 0)),
          pyIntOf (dictGet d (str "month") (.int 0)),
          pyIntOf (dictGet d (str "day") (.int 0)) with
    | some y, some m, some dd =>
        let y2 := if y > 1911 then y - 1911 else y
        padInt 3 y2 ++ str "年" ++ padInt 2 m ++ str "月" ++
          padInt 2 dd ++ str "日"
    | _, _, _ => []
  | v => pyStrOf v

/-! ### Match Ranker

`search_moea_keyword` and `search_g0v_fuzzy` apply the same ranking policy
to the candidate lists of their respective endpoints (`Company_Name` /
`Business_Accounting_NO` for the official registry, `name` / `id` for the
community mirror); `rank` is that shared policy over the uniform candidate
shape. -/

/-- A search-result candidate: an identifier and a display name. -/
structure Candidate where
  id : Str
  displayName : Str
deriving DecidableEq

/-- Python substring test `needle in hay`. -/
def strIn (needle hay : Str) : Bool := needle <:+: hay

/-- The comparison key of `candidates.sort(key=lambda x: len(x["Company_Name"]))`. -/
def candLE (a b : Candidate) : Bool := a.displayName.length ≤ b.displayName.length

/-- The ranking policy shared by `search_moea_keyword` and
`search_g0v_fuzzy`: first exact displayName match; else the head of the
stable length-sort of the candidates containing the target as a substring
(`head?` is `some` exactly when that filtered list — `candidates` in the
Python — is non-empty); else the first candidate; else `None`. -/
def rank (target : Str) (cands : List Candidate) : Option Str :=
  match cands.find? fun c => c.displayName == target with
  | some c => some c.id
  | Option.none =>
    let subs := cands.filter fun c => strIn target c.displayName
    match (subs.mergeSort candLE).head? with
    | some c => some c.id
    | Option.none =>
      match cands with
      | c :: _ => some c.id
      | [] => Option.none

/-- First element attaining the minimal value of `f`, if any: the head of a
stable sort by `f`. -/
def firstMinBy (f : α → Nat) : List α → Option α
  | [] => Option.none
  | a :: l =>
    match firstMinBy f l with
    | Option.none => some a
    | some b => if f a ≤ f b then some a else some b

/-- Structural evaluation form of `rank` (`List.mergeSort` is defined by
well-founded recursion and does not reduce in the kernel; `rankEval`
replaces sort-then-head by the first candidate of minimal length, which
`rank_eq_rankEval` below proves equal using the stability of the sort). -/
def rankEval (target : Str) (cands : List Candidate) : Option Str :=
  match cands.find? fun c => c.displayName == target with
  | some c => some c.id
  | Option.none =>
    match firstMinBy (fun c : Candidate => c.displayName.length)
        (cands.filter fun c => strIn target c.displayName) with
    | some c => some c.id
    | Option.none =>
      match cands with
      | c :: _ => some c.id
      | [] => Option.none

/-! ### Resolution Pipeline -/

/-- The two upstream search sources tried by `search_id_smart`. -/
inductive Source where
  | moea
  | g0v
deriving DecidableEq

/-- `if found:` — a stage result counts as a success only when truthy,
i.e. present and non-empty. -/
def optFound (o : Option Str) : Bool :=
  match o with
  | some s => !s.isEmpty
  | Option.none => false

/-- `.replace(" ", "").replace("　", "")`: every ASCII space and every
ideographic space is removed from the whole string. -/
def removeSpaces (s : Str) : Str :=
  (s.filter fun c => c != ' ').filter fun c => c != '　'

/-- `search_id_smart`, with the two network search functions abstracted as
the oracle `f` and each attempted `(source, query)` call recorded in an
attempt trace (second component).  An empty input returns immediately;
otherwise the space-stripped `raw_name` is tried on both sources, and the
suffix-stripped `core_name` is retried on both only when it differs. -/
def search_id_smart (f : Source → Str → Option Str) (name : Str) :
    Option Str × List (Source × Str) :=
  if name = [] then (Option.none, [])
  else
    let raw_name := removeSpaces (pyStrip name)
    let core_name := clean_company_name raw_name
    let r1 := f .moea raw_name
    if optFound r1 then (r1, [(.moea, raw_name)])
    else
      let r2 := f .g0v raw_name
      if optFound r2 then (r2, [(.moea, raw_name), (.g0v, raw_name)])
      else
        if core_name ≠ raw_name then
          let r3 := f .moea core_name
          if optFound r3 then
            (r3, [(.moea, raw_name), (.g0v, raw_name), (.moea, core_name)])
          else
            let r4 := f .g0v core_name
            if optFound r4 then
              (r4, [(.moea, raw_name), (.g0v, raw_name),
                    (.moea, core_name), (.g0v, core_name)])
            else
              (Option.none, [(.moea, raw_name), (.g0v, raw_name),
                             (.moea, core_name), (.g0v, core_name)])
        else (Option.none, [(.moea, raw_name), (.g0v, raw_name)])

/-! ### Detail Fetcher (`fetch_company_data`)

The two detail endpoints are abstracted as oracles `Str → Option PyVal`:
`none` models a swallowed request failure (timeout / non-200 / parse
error), `some v` the parsed JSON body. -/

/-- The mirror path's name unwrap: when `公司名稱` holds a list it is
replaced by the stringified first element; an empty list raises
`IndexError` inside the `try`, aborting the mirror path (`none`). -/
def g0vUnwrapName (c : List (Str × PyVal)) : Option (List (Str × PyVal)) :=
  match dictLookup c (str "公司名稱") with
  | some (.list []) => Option.none
  | some (.list (x :: _)) => some (dictSet c (str "公司名稱") (.str (pyStrOf x)))
  | _ => some c

/-- The four date columns converted in the mirror path. -/
def dateCols : List Str :=
  [str "核准設立日期", str "最後核准變更日期", str "停業日期", str "復業日期"]

/-- Convert each present date column with `format_date_roc`. -/
def convertDates (c : List (Str × PyVal)) : List (Str × PyVal) :=
  dateCols.foldl
    (fun acc k =>
      match dictLookup acc k with
      | some v => dictSet acc k (.str (format_date_roc v))
      | Option.none => acc)
    c

/-- The community-mirror detail path: it produces a record exactly when the
response is a dict whose `data` entry is a non-empty dict and the name
unwrap does not raise; a truthy non-dict `data` value makes the later dict
operations raise inside the `try`, and any other shape skips the `return`,
both falling through to the official endpoint. -/
def g0vDetail (resp : Option PyVal) : Option (List (Str × PyVal) × PyVal) :=
  match resp with
  | some (.dict d) =>
    match dictLookup d (str "data") with
    | some (.dict c) =>
      if c.isEmpty then Option.none
      else
        match g0vUnwrapName c with
        | some c1 =>
          let c2 := convertDates c1
          some (c2, dictGet c2 (str "董監事名單") (.list []))
        | Option.none => Option.none
    | _ => Option.none
  | _ => Option.none

/-- The official-registry detail record: the fixed semantic-field mapping
built with `item.get(...)` (default `None`). -/
def moeaFields : List (Str × Str) :=
  [(str "統一編號", str "Business_Accounting_NO"),
   (str "公司名稱", str "Company_Name"),
   (str "代表人姓名", str "Responsible_Name"),
   (str "公司所在地", str "Company_Location"),
   (str "實收資本額(元)", str "Paid_In_Capital_Amount"),
   (str "核准設立日期", str "Company_Setup_Date")]

/-- Map one official-registry item into the output schema. -/
def moeaDetailMap (item : List (Str × PyVal)) : List (Str × PyVal) :=
  moeaFields.map fun p => (p.1, dictGet item p.2 .none)

/-- The official-registry detail path: a non-empty list response whose
first element is a dict yields the mapped record and an empty director
list; anything else (including a non-dict first element, whose `.get`
raises inside the `try`) yields nothing. -/
def moeaDetail (resp : Option PyVal) : Option (List (Str × PyVal) × PyVal) :=
  match resp with
  | some (.list (.dict item :: _)) => some (moeaDetailMap item, .list [])
  | _ => Option.none

/-- `fetch_company_data`: try the community mirror first; on any failure or
empty result fall back to the official registry; `none` models the
`(None, None)` return. -/
def fetch_company_data (g0vShow moeaD : Str → Option PyVal) (tax_id : Str) :
    Option (List (Str × PyVal) × PyVal) :=
  match g0vDetail (g0vShow tax_id) with
  | some r => some r
  | Option.none => moeaDetail (moeaD tax_id)

/-! ### Batch Reconciler (the tab-2 batch loop) -/

/-- Python `str.lower()` (ASCII subset, as needed for the `'nan'` check). -/
def pyLower (s : Str) : Str :=
  s.map fun c => if 'A' ≤ c ∧ c ≤ 'Z' then Char.ofNat (c.toNat + 32) else c

/-- One raw cell of the uploaded sheet: `none` models a missing column or
a `pd.notna` failure; otherwise the cell text is stripped and a literal
`'nan'` (case-insensitive) is cleared to the empty string. -/
def cleanCell (cell : Option Str) : Str :=
  match cell with
  | Option.none => []
  | some v =>
    let s := pyStrip v
    if pyLower s = str "nan" then [] else s

/-- Characters accepted by Python `str.isdigit()` (modelled subset of the
Unicode digits: ASCII digits, fullwidth digits, Arabic-Indic digits and
superscript one/two/three; the real predicate accepts further Unicode
digit characters). -/
def pyIsDigitChar (c : Char) : Bool :=
  ('0' ≤ c && c ≤ '9') || ('０' ≤ c && c ≤ '９') || ('٠' ≤ c && c ≤ '٩') ||
  c = '¹' || c = '²' || c = '³'

/-- Python `s.isdigit()`: non-empty and all digit characters. -/
def pyStrIsDigit (s : Str) : Bool := !s.isEmpty && s.all pyIsDigitChar

/-- The batch loop's direct-identifier test:
`raw_id.isdigit() and len(raw_id) == 8`. -/
def isDirect8 (s : Str) : Bool := pyStrIsDigit s && s.length == 8

/-- The per-row strategy selection (`tid, method`): direct identifier when
the identifier cell passes `isDirect8`, otherwise name resolution through
`search_id_smart` when a name is present (its result used only when
truthy), otherwise nothing. -/
def rowStrategy (f : Source → Str → Option Str) (raw_id raw_name : Str) :
    Option (Str × Str) :=
  if isDirect8 raw_id then some (raw_id, str "統編直查")
  else if raw_name ≠ [] then
    match (search_id_smart f raw_name).1 with
    | some found =>
      if found ≠ [] then some (found, str "名稱搜尋(" ++ raw_name ++ str ")")
      else Option.none
    | Option.none => Option.none
  else Option.none

/-- The wide output row appended on a successful detail fetch: the fixed
field set pulled from the detail record with `c_data.get(k, '')`, then the
provenance keys added by `out.update(...)`. -/
def successRow (i : Nat) (tid : Str) (c : List (Str × PyVal))
    (method raw_id raw_name : Str) : List (Str × PyVal) :=
  [(str "項目", .int (i + 1)),
   (str "統一編號", .str tid),
   (str "登記現況", dictGet c (str "登記現況") (.str [])),
   (str "公司名稱", dictGet c (str "公司名稱") (.str [])),
   (str "章程所訂外文公司名稱", dictGet c (str "章程所訂外文公司名稱") (.str [])),
   (str "資本總額(元)", dictGet c (str "資本總額(元)") (.str [])),
   (str "實收資本額(元)", dictGet c (str "實收資本額(元)") (.str [])),
   (str "每股金額(元)", dictGet c (str "每股金額(元)") (.str [])),
   (str "已發行股份總數(股)", dictGet c (str "已發行股份總數(股)") (.str [])),
   (str "代表人姓名", dictGet c (str "代表人姓名") (.str [])),
   (str "公司所在地", dictGet c (str "公司所在地") (.str [])),
   (str "登記機關", dictGet c (str "登記機關") (.str [])),
   (str "核准設立日期", dictGet c (str "核准設立日期") (.str [])),
   (str "最後核准變更日期", dictGet c (str "最後核准變更日期") (.str [])),
   (str "查詢來源", .str method),
   (str "原始輸入統編", .str raw_id),
   (str "原始輸入名稱", .str raw_name)]

/-- The sentinel row appended when an identifier exists but the Detail
Fetcher produced nothing. -/
def noApiRow (i : Nat) (tid method raw_name : Str) : List (Str × PyVal) :=
  [(str "項目", .int (i + 1)), (str "統一編號", .str tid),
   (str "公司名稱", .str (str "API無回應")),
   (str "查詢來源", .str method), (str "原始輸入名稱", .str raw_name)]

/-- The sentinel row appended when no identifier could be obtained. -/
def unrecognizedRow (i : Nat) (raw_id raw_name : Str) : List (Str × PyVal) :=
  [(str "項目", .int (i + 1)), (str "統一編號", .str raw_id),
   (str "公司名稱", .str (str "無法識別")), (str "原始輸入名稱", .str raw_name)]

/-- Tag each director record with the owning company's identifier and
name (`d.update({...})`).  Iterating a truthy non-list value, or updating a
non-dict element, raises an uncaught exception in the Python loop: `none`.
A falsy director value contributes nothing. -/
def processDirs (tid : Str) (cName : PyVal) (dirs : PyVal) :
    Option (List (List (Str × PyVal))) :=
  if pyTruthy dirs then
    match dirs with
    | .list ds =>
      ds.mapM fun d =>
        match d with
        | .dict dd =>
          some (dictSet (dictSet dd (str "所屬公司統編") (.str tid))
            (str "所屬公司名稱") cName)
        | _ => Option.none
    | _ => Option.none
  else some []

/-- One iteration of the batch loop over row `i`: strategy selection, then
detail fetch, appending exactly one base row (wide, no-API sentinel, or
unrecognized sentinel) and the row's tagged directors.  `none` models an
uncaught exception while processing a malformed director value. -/
def processRow (f : Source → Str → Option Str)
    (fetchD : Str → Option (List (Str × PyVal) × PyVal)) (i : Nat)
    (cellId cellName : Option Str) :
    Option (List (Str × PyVal) × List (List (Str × PyVal))) :=
  let raw_id := cleanCell cellId
  let raw_name := cleanCell cellName
  match rowStrategy f raw_id raw_name with
  | some (tid, method) =>
    match fetchD tid with
    | some (c, dirs) =>
      if c.isEmpty then some (noApiRow i tid method raw_name, [])
      else
        match processDirs tid (dictGet c (str "公司名稱") (.str [])) dirs with
        | some ds => some (successRow i tid c method raw_id raw_name, ds)
        | Option.none => Option.none
    | Option.none => some (noApiRow i tid method raw_name, [])
  | Option.none => some (unrecognizedRow i raw_id raw_name, [])

/-- The batch loop from row index `i` on, accumulating base rows in input
order and directors across rows. -/
def batchLoopAux (f : Source → Str → Option Str)
    (fetchD : Str → Option (List (Str × PyVal) × PyVal)) :
    Nat → List (Option Str × Option Str) →
    Option (List (List (Str × PyVal)) × List (List (Str × PyVal)))
  | _, [] => some ([], [])
  | i, (cid, cname) :: rest =>
    match processRow f fetchD i cid cname with
    | some (row, ds) =>
      match batchLoopAux f fetchD (i + 1) rest with
      | some (base, dirAcc) => some (row :: base, ds ++ dirAcc)
      | Option.none => Option.none
    | Option.none => Option.none

/-- The whole batch run over the uploaded rows (identifier cell, name
cell), starting at row index 0. -/
def reconcileBatch (f : Source → Str → Option Str)
    (fetchD : Str → Option (List (Str × PyVal) × PyVal))
    (rows : List (Option Str × Option Str)) :
    Option (List (List (Str × PyVal)) × List (List (Str × PyVal))) :=
  batchLoopAux f fetchD 0 rows

/-- Is the value a dict? -/
def isDictVal : PyVal → Bool
  | .dict _ => true
  | .str _ => false
  | .int _ => false
  | .list _ => false
  | .none => false

/-- Well-formedness of a fetched director value: falsy, or a list of
dicts — exactly the shapes the Python loop survives. -/
def dirsOK (dirs : PyVal) : Bool :=
  !pyTruthy dirs ||
    (match dirs with
     | .list ds => ds.all isDictVal
     | _ => false)

/-! ### Concrete environments used to instantiate the theorems -/

/-- Characters that are neither an ASCII space nor an ideographic space. -/
def notSpaceChar (c : Char) : Bool := !(c == ' ' || c == '　')

/-- A search oracle on which every stage fails. -/
def oracleNone : Source → Str → Option Str := fun _ _ => Option.none

/-- A search oracle on which every stage succeeds with a fixed id. -/
def oracleConst : Source → Str → Option Str := fun _ _ => some (str "00000000")

/-- A search oracle succeeding only on the g0v stage. -/
def oracleG0vOnly : Source → Str → Option Str := fun s _ =>
  match s with
  | .g0v => some (str "11111111")
  | .moea => Option.none

/-- A detail-fetch oracle that always fails. -/
def fetchNone : Str → Option (List (Str × PyVal) × PyVal) := fun _ => Option.none

/-- A small fixed detail record. -/
def sampleDetail : List (Str × PyVal) :=
  [(str "公司名稱", .str (str "台灣積體電路製造股份有限公司")),
   (str "統一編號", .str (str "22099131"))]

/-- A detail-fetch oracle that always returns `sampleDetail` and one
director dict. -/
def fetchConst : Str → Option (List (Str × PyVal) × PyVal) := fun _ =>
  some (sampleDetail, .list [.dict [(str "姓名", .str (str "甲"))]])

/-- A mirror-endpoint oracle that always fails. -/
def g0vRespNone : Str → Option PyVal := fun _ => Option.none

/-- A fixed official-registry detail response. -/
def moeaRespConst : Str → Option PyVal := fun _ =>
  some (.list [.dict [(str "Business_Accounting_NO", .str (str "22099131")),
                      (str "Company_Name", .str (str "台灣積體電路製造股份有限公司"))]])

/-- A fixed community-mirror detail response. -/
def g0vRespConst : Str → Option PyVal := fun _ =>
  some (.dict [(str "data",
    .dict [(str "公司名稱", .list [.str (str "台灣積體電路製造股份有限公司")]),
           (str "核准設立日期", .dict [(str "year", .int 1987), (str "month", .int 2),
                                      (str "day", .int 21)]),
           (str "董監事名單", .list [.dict [(str "姓名", .str (str "乙"))]])])])

/-! ## Supporting lemmas -/

theorem decideLE_trans (f : α → Nat) (a b c : α) (hab : decide (f a ≤ f b) = true)
    (hbc : decide (f b ≤ f c) = true) : decide (f a ≤ f c) = true := by
  simp at hab hbc ⊢
  omega

theorem decideLE_total (f : α → Nat) (a b : α) :
    decide (f a ≤ f b) || decide (f b ≤ f a) := by
  simp [Nat.le_total]

/-- The head of the stable length-sort is the first element attaining the
minimal key: stability of `List.mergeSort`, specialised to what the
ranking policy needs. -/
theorem mergeSort_head?_eq_firstMinBy (f : α → Nat) (l : List α) :
    (l.mergeSort fun a b => decide (f a ≤ f b)).head? = firstMinBy f l := by
  induction l with
  | nil => simp [firstMinBy]
  | cons a l ih =>
    obtain ⟨l₁, l₂, h₁, h₂, h₃⟩ :=
      List.mergeSort_cons (decideLE_trans f) (decideLE_total f) a l
    have hs := @List.sorted_mergeSort α (fun a b : α => decide (f a ≤ f b))
      (decideLE_trans f) (decideLE_total f) (a :: l)
    rw [h₁] at hs ⊢
    cases l₁ with
    | nil =>
      simp only [List.nil_append] at h₂ hs ⊢
      rw [List.head?_cons]
      cases hl : l₂ with
      | nil =>
        have hl0 : l = [] := by
          have hp := List.mergeSort_perm l (fun a b : α => decide (f a ≤ f b))
          rw [h₂, hl] at hp
          exact hp.symm.eq_nil
        subst hl0
        simp [firstMinBy]
      | cons b t =>
        have hb : firstMinBy f l = some b := by
          rw [← ih, h₂, hl, List.head?_cons]
        have hab : f a ≤ f b := by
          have h' := List.rel_of_pairwise_cons hs
            (show b ∈ l₂ by rw [hl]; exact List.mem_cons_self b t)
          simpa using h'
        simp [firstMinBy, hb, hab]
    | cons c t =>
      have hc : firstMinBy f l = some c := by
        rw [← ih, h₂, List.cons_append, List.head?_cons]
      have hlt : f c < f a := by
        have h' := h₃ c (List.mem_cons_self c t)
        simp at h'
        omega
      have hac : ¬ (f a ≤ f c) := by omega
      simp [firstMinBy, hc, hac]

/-- `firstMinBy` returns the first element attaining the minimum: the list
splits around it, it is minimal, and everything before it is strictly
larger. -/
theorem firstMinBy_spec (f : α → Nat) :
    ∀ l : List α, l ≠ [] →
      ∃ pre c post, l = pre ++ c :: post ∧ firstMinBy f l = some c ∧
        (∀ b ∈ l, f c ≤ f b) ∧ (∀ b ∈ pre, f c < f b) := by
  intro l
  induction l with
  | nil => intro h; exact absurd rfl h
  | cons a t ih =>
    intro _
    by_cases ht : t = []
    · subst ht
      exact ⟨[], a, [], by simp, by simp [firstMinBy], by simp, by simp⟩
    · obtain ⟨pre, c, post, hsplit, hmin, hall, hpre⟩ := ih ht
      by_cases hac : f a ≤ f c
      · refine ⟨[], a, t, by simp, ?_, ?_, by simp⟩
        · simp [firstMinBy, hmin, hac]
        · intro b hb
          rcases List.mem_cons.mp hb with rfl | hb
          · exact le_refl _
          · exact le_trans hac (hall b hb)
      · have hlt : f c < f a := Nat.lt_of_not_le hac
        refine ⟨a :: pre, c, post, by rw [hsplit]; rfl, ?_, ?_, ?_⟩
        · simp [firstMinBy, hmin, hac]
        · intro b hb
          rcases List.mem_cons.mp hb with rfl | hb
          · exact le_of_lt hlt
          · exact hall b hb
        · intro b hb
          rcases List.mem_cons.mp hb with rfl | hb
          · exact hlt
          · exact hpre b hb

/-- `rank` computes the same result as its structural evaluation form. -/
theorem rank_eq_rankEval (target : Str) (cands : List Candidate) :
    rank target cands = rankEval target cands := by
  simp only [rank, rankEval]
  have h : ((cands.filter fun c => strIn target c.displayName).mergeSort candLE).head?
      = firstMinBy (fun c : Candidate => c.displayName.length)
          (cands.filter fun c => strIn target c.displayName) :=
    mergeSort_head?_eq_firstMinBy _ _
  rw [h]

/-! ## Claims -/

/-- C1: For every target name and every candidate list, the Match Ranker
returns the identifier of a candidate whose displayName equals the target
exactly if one exists; otherwise, among candidates whose displayName
contains the target as a substring, it returns the identifier of the one
with the shortest displayName, ties broken by original list order;
otherwise, if the candidate list is non-empty, it returns the first
candidate's identifier; otherwise it returns absent. -/
theorem C1_match_ranker (target : Str) (cands : List Candidate) :
    ((∃ c ∈ cands, c.displayName = target) →
      ∃ c ∈ cands, c.displayName = target ∧ rank target cands = some c.id)
    ∧ ((∀ c ∈ cands, c.displayName ≠ target) →
        ((cands.filter fun c => strIn target c.displayName) ≠ [] →
          ∃ pre c post,
            (cands.filter fun c => strIn target c.displayName) = pre ++ c :: post ∧
            strIn target c.displayName = true ∧
            (∀ b ∈ cands, strIn target b.displayName = true →
              c.displayName.length ≤ b.displayName.length) ∧
            (∀ b ∈ pre, c.displayName.length < b.displayName.length) ∧
            rank target cands = some c.id)
        ∧ ((cands.filter fun c => strIn target c.displayName) = [] →
            ∀ c₀ rest, cands = c₀ :: rest → rank target cands = some c₀.id))
    ∧ (cands = [] → rank target cands = Option.none) := by
  refine ⟨?_, ?_, ?_⟩
  · rintro ⟨c0, hc0, he⟩
    have hfind : (cands.find? fun c => c.displayName == target).isSome := by
      apply List.find?_isSome.mpr
      exact ⟨c0, hc0, by simp [he]⟩
    obtain ⟨c₁, hc₁⟩ := Option.isSome_iff_exists.mp hfind
    refine ⟨c₁, List.mem_of_find?_eq_some hc₁, ?_, ?_⟩
    · have h' := List.find?_some hc₁
      simpa using h'
    · simp only [rank]
      rw [hc₁]
  · intro hne
    have hfind : (cands.find? fun c => c.displayName == target) = Option.none := by
      apply List.find?_eq_none.mpr
      intro c hc
      simp [hne c hc]
    constructor
    · intro hsubs
      obtain ⟨pre, c, post, hsplit, hmin, hall, hpre⟩ :=
        firstMinBy_spec (fun c : Candidate => c.displayName.length) _ hsubs
      have hcmem : c ∈ cands.filter fun c => strIn target c.displayName := by
        rw [hsplit]
        exact List.mem_append_right _ (List.mem_cons_self c post)
      refine ⟨pre, c, post, hsplit, (List.mem_filter.mp hcmem).2, ?_, hpre, ?_⟩
      · intro b hb hbin
        exact hall b (List.mem_filter.mpr ⟨hb, hbin⟩)
      · rw [rank_eq_rankEval]
        simp only [rankEval, hfind, hmin]
    · intro hsubs c₀ rest hcands
      rw [rank_eq_rankEval]
      simp only [rankEval, hfind, hsubs, firstMinBy]
      rw [hcands]
  · intro h
    subst h
    rw [rank_eq_rankEval]
    rfl

/-- Witness for C1: on the spec's exact-match example the ranker returns
the exactly matching candidate's identifier. -/
theorem C1_match_ranker_witness :
    ∃ c ∈ [Candidate.mk (str "1") (str "台積電控股"),
           Candidate.mk (str "2") (str "台積電")],
      c.displayName = str "台積電" ∧
      rank (str "台積電")
        [Candidate.mk (str "1") (str "台積電控股"),
         Candidate.mk (str "2") (str "台積電")] = some c.id :=
  (C1_match_ranker (str "台積電")
    [Candidate.mk (str "1") (str "台積電控股"),
     Candidate.mk (str "2") (str "台積電")]).1
    ⟨Candidate.mk (str "2") (str "台積電"), by decide, by decide⟩

/-- A truthy stage result. -/
theorem optFound_some {s : Str} (h : s ≠ []) : optFound (some s) = true := by
  cases s with
  | nil => exact absurd rfl h
  | cons a t => rfl

/-- C2: For every raw name, resolve returns absent immediately when the
name is empty; otherwise it attempts source A (the official registry) on
the raw name, then source B (the community mirror) on the raw name, and,
only when the core name differs from the raw name, source A on the core
name and then source B on the core name, returning the first stage's
successful identifier and never attempting a later stage after a success
(the attempt trace stops at the winning stage); when the name equals its
core-name form, no suffix-stripped retry stage is attempted and the result
after both raw-name stages fail is absent. -/
theorem C2_resolution_pipeline (f : Source → Str → Option Str) (name : Str)
    (raw core : Str) (hraw : raw = removeSpaces (pyStrip name))
    (hcore : core = clean_company_name raw) :
    (name = [] → search_id_smart f name = (Option.none, []))
    ∧ (name ≠ [] → ∀ i, f .moea raw = some i → i ≠ [] →
        search_id_smart f name = (some i, [(.moea, raw)]))
    ∧ (name ≠ [] → optFound (f .moea raw) = false →
        ∀ i, f .g0v raw = some i → i ≠ [] →
        search_id_smart f name = (some i, [(.moea, raw), (.g0v, raw)]))
    ∧ (name ≠ [] → optFound (f .moea raw) = false → optFound (f .g0v raw) = false →
        core ≠ raw → ∀ i, f .moea core = some i → i ≠ [] →
        search_id_smart f name = (some i, [(.moea, raw), (.g0v, raw), (.moea, core)]))
    ∧ (name ≠ [] → optFound (f .moea raw) = false → optFound (f .g0v raw) = false →
        core ≠ raw → optFound (f .moea core) = false →
        ∀ i, f .g0v core = some i → i ≠ [] →
        search_id_smart f name =
          (some i, [(.moea, raw), (.g0v, raw), (.moea, core), (.g0v, core)]))
    ∧ (name ≠ [] → optFound (f .moea raw) = false → optFound (f .g0v raw) = false →
        core = raw → search_id_smart f name = (Option.none, [(.moea, raw), (.g0v, raw)]))
    ∧ (name ≠ [] → optFound (f .moea raw) = false → optFound (f .g0v raw) = false →
        optFound (f .moea core) = false → optFound (f .g0v core) = false →
        (search_id_smart f name).1 = Option.none) := by
  subst hraw hcore
  refine ⟨?_, ?_, ?_, ?_, ?_, ?_, ?_⟩
  · intro h
    simp [search_id_smart, h]
  · intro hname i hi hne
    simp [search_id_smart, hname, hi, optFound_some hne]
  · intro hname h1 i hi hne
    simp [search_id_smart, hname, h1, hi, optFound_some hne]
  · intro hname h1 h2 hcr i hi hne
    simp [search_id_smart, hname, h1, h2, hcr, hi, optFound_some hne]
  · intro hname h1 h2 hcr h3 i hi hne
    simp [search_id_smart, hname, h1, h2, hcr, h3, hi, optFound_some hne]
  · intro hname h1 h2 hcr
    simp [search_id_smart, hname, h1, h2, hcr]
  · intro hname h1 h2 h3 h4
    by_cases hcr : clean_company_name (removeSpaces (pyStrip name))
        = removeSpaces (pyStrip name)
    · simp [search_id_smart, hname, h1, h2, hcr]
    · simp [search_id_smart, hname, h1, h2, h3, h4, hcr]

/-- Witness for C2: with a g0v-only oracle the pipeline stops after the
second stage and returns its identifier. -/
theorem C2_resolution_pipeline_witness :
    search_id_smart oracleG0vOnly (str "台積電") =
      (some (str "11111111"),
       [(Source.moea, str "台積電"), (Source.g0v, str "台積電")]) :=
  ((C2_resolution_pipeline oracleG0vOnly (str "台積電") _ _ rfl rfl).2.2.1)
    (by decide) rfl (str "11111111") rfl (by decide)

/-- Filtering out some whitespace characters commutes with dropping a
whitespace prefix. -/
theorem filter_dropWhile_comm (ns ws : α → Bool) (hw : ∀ c, ns c = false → ws c = true) :
    ∀ l : List α, (l.dropWhile ws).filter ns = (l.filter ns).dropWhile ws := by
  intro l
  induction l with
  | nil => simp
  | cons a t ih =>
    by_cases hwa : ws a = true
    · by_cases hna : ns a = true
      · simp [List.dropWhile_cons, List.filter_cons, hwa, hna, ih]
      · simp [List.dropWhile_cons, List.filter_cons, hwa, hna, ih]
    · have hna : ns a = true := by
        by_contra h
        exact hwa (hw a (by simpa using h))
      simp [List.dropWhile_cons, List.filter_cons, hwa, hna]

/-- Filtering out space characters commutes with `pyStrip`. -/
theorem filter_pyStrip (ns : Char → Bool)
    (hw : ∀ c, ns c = false → pyWhitespace c = true) (s : Str) :
    (pyStrip s).filter ns = pyStrip (s.filter ns) := by
  unfold pyStrip
  rw [List.filter_reverse, filter_dropWhile_comm ns pyWhitespace hw,
    List.filter_reverse, filter_dropWhile_comm ns pyWhitespace hw]

/-- `removeSpaces` is the filter keeping the non-space characters. -/
theorem removeSpaces_eq_filter (s : Str) : removeSpaces s = s.filter notSpaceChar := by
  unfold removeSpaces notSpaceChar
  rw [List.filter_filter]
  apply List.filter_congr
  intro c _
  simp [bne, Bool.not_or, Bool.and_comm]

/-- Space characters are whitespace. -/
theorem notSpaceChar_whitespace : ∀ c, notSpaceChar c = false → pyWhitespace c = true := by
  intro c hc
  simp [notSpaceChar] at hc
  by_cases h' : c = ' '
  · simp [h', pyWhitespace]
  · simp [hc h', pyWhitespace]

/-- The pipeline's space-stripped query depends only on the non-space
characters of the name. -/
theorem raw_eq_of_filter_eq (n1 n2 : Str)
    (h : n1.filter notSpaceChar = n2.filter notSpaceChar) :
    removeSpaces (pyStrip n1) = removeSpaces (pyStrip n2) := by
  rw [removeSpaces_eq_filter, removeSpaces_eq_filter,
    filter_pyStrip notSpaceChar notSpaceChar_whitespace,
    filter_pyStrip notSpaceChar notSpaceChar_whitespace, h]

/-- C10 counterexample: the space-only name and the empty name differ only
in space characters, yet with an always-succeeding search oracle the
pipeline resolves one and not the other (the emptiness guard runs before
any space removal). -/
theorem C10_counterexample :
    ([' '] : Str).filter notSpaceChar = ([] : Str).filter notSpaceChar ∧
    (search_id_smart oracleConst [' ']).1 ≠ (search_id_smart oracleConst []).1 := by
  decide

/-- C10 (amended): Before any adapter search and before computing the core
name, the Resolution Pipeline removes every ASCII space and every
full-width space (U+3000) from the entire name, so for every pair of
NON-EMPTY names differing only in such space characters, resolve returns
the same result (and the same attempt trace); the empty name is
special-cased to absent before any stripping, so it may differ from a
space-only name. -/
theorem C10_space_insensitive (f : Source → Str → Option Str) (n1 n2 : Str)
    (h1 : n1 ≠ []) (h2 : n2 ≠ [])
    (h : n1.filter notSpaceChar = n2.filter notSpaceChar) :
    search_id_smart f n1 = search_id_smart f n2 := by
  have hraw := raw_eq_of_filter_eq n1 n2 h
  simp only [search_id_smart, h1, h2, if_false, ite_false]
  rw [hraw]

/-- Witness for C10: two spellings of the same name differing by an
inserted space resolve identically. -/
theorem C10_space_insensitive_witness :
    search_id_smart oracleNone (str "台 積電") = search_id_smart oracleNone (str "台積電") :=
  C10_space_insensitive oracleNone (str "台 積電") (str "台積電")
    (by decide) (by decide) (by decide)

/-- The suffix scan only ever removes characters. -/
theorem mem_removeFirstSuffix : ∀ (L : List Str) (s : Str) (c : Char),
    c ∈ removeFirstSuffix L s → c ∈ s := by
  intro L
  induction L with
  | nil => intro s c h; exact h
  | cons suf rest ih =>
    intro s c h
    unfold removeFirstSuffix at h
    by_cases hs : suf.isSuffixOf s = true
    · rw [if_pos hs] at h
      exact List.mem_of_mem_take h
    · rw [if_neg hs] at h
      exact ih s c h

/-- Parenthesis normalization leaves no full-width parenthesis behind. -/
theorem replaceParens_no_fullwidth (s : Str) :
    ∀ c ∈ replaceParens s, c ≠ '（' ∧ c ≠ '）' := by
  intro c hc
  unfold replaceParens at hc
  obtain ⟨a, ha, rfl⟩ := List.mem_map.mp hc
  split_ifs with h1 h2
  · exact ⟨by decide, by decide⟩
  · exact ⟨by decide, by decide⟩
  · exact ⟨h1, h2⟩

/-- Parenthesis normalization fixes strings without full-width parentheses. -/
theorem replaceParens_eq_self (s : Str) (h : ∀ c ∈ s, c ≠ '（' ∧ c ≠ '）') :
    replaceParens s = s := by
  unfold replaceParens
  conv_rhs => rw [← List.map_id s]
  apply List.map_congr_left
  intro a ha
  simp [(h a ha).1, (h a ha).2]

/-- The suffix scan fixes strings ending in none of the suffixes. -/
theorem removeFirstSuffix_no_match (L : List Str) (s : Str)
    (h : ∀ suf ∈ L, suf.isSuffixOf s = false) : removeFirstSuffix L s = s := by
  induction L with
  | nil => rfl
  | cons suf rest ih =>
    unfold removeFirstSuffix
    rw [if_neg (by rw [h suf (List.mem_cons_self suf rest)]; exact Bool.false_ne_true)]
    exact ih fun s' hs' => h s' (List.mem_cons_of_mem _ hs')

/-- Removing a matched suffix splits the string. -/
theorem isSuffixOf_append_take (suf s : Str) (h : suf.isSuffixOf s = true) :
    s.take (s.length - suf.length) ++ suf = s := by
  have h' : suf <:+ s := by simpa [List.isSuffixOf_iff_suffix] using h
  obtain ⟨t, rfl⟩ := h'
  have hl : (t ++ suf).length - suf.length = t.length := by simp
  rw [hl, List.take_left]

/-- The scan removes exactly the first matching suffix. -/
theorem removeFirstSuffix_first (L1 : List Str) (suf : Str) (L2 : List Str) (s : Str)
    (h1 : ∀ s' ∈ L1, s'.isSuffixOf s = false) (h2 : suf.isSuffixOf s = true) :
    removeFirstSuffix (L1 ++ suf :: L2) s ++ suf = s := by
  induction L1 with
  | nil =>
    simp only [List.nil_append]
    unfold removeFirstSuffix
    rw [if_pos h2]
    exact isSuffixOf_append_take suf s h2
  | cons a t ih =>
    simp only [List.cons_append]
    unfold removeFirstSuffix
    rw [if_neg (by rw [h1 a (List.mem_cons_self a t)]; exact Bool.false_ne_true)]
    exact ih fun s' hs' => h1 s' (List.mem_cons_of_mem _ hs')

/-- The scan removes one suffix of the list or none. -/
theorem removeFirstSuffix_cases (L : List Str) (s : Str) :
    removeFirstSuffix L s = s ∨ ∃ suf ∈ L, removeFirstSuffix L s ++ suf = s := by
  induction L with
  | nil => left; rfl
  | cons a t ih =>
    unfold removeFirstSuffix
    by_cases h : a.isSuffixOf s = true
    · rw [if_pos h]
      right
      exact ⟨a, List.mem_cons_self a t, isSuffixOf_append_take a s h⟩
    · rw [if_neg h]
      rcases ih with h' | ⟨suf, hm, he⟩
      · left; exact h'
      · right; exact ⟨suf, List.mem_cons_of_mem _ hm, he⟩

/-- C4 counterexample: the Name Normalizer is not idempotent.  Stripping
the suffix of `"甲 有限公司"` exposes a trailing space (`"甲 "`), which a
second application trims away. -/
theorem C4_counterexample :
    clean_company_name (clean_company_name (str "甲 有限公司")) ≠
      clean_company_name (str "甲 有限公司") := by decide

/-- C4 (amended): the Name Normalizer is idempotent on every input whose
normalized form is already whitespace-trimmed and does not end in any
listed legal suffix; in general a suffix removal can expose trailing
whitespace or another suffix, which a second application also removes. -/
theorem C4_normalizer_idempotent (x : Str)
    (h1 : pyStrip (clean_company_name x) = clean_company_name x)
    (h2 : ∀ suf ∈ suffixes, suf.isSuffixOf (clean_company_name x) = false) :
    clean_company_name (clean_company_name x) = clean_company_name x := by
  have hpar : ∀ c ∈ clean_company_name x, c ≠ '（' ∧ c ≠ '）' := by
    intro c hc
    exact replaceParens_no_fullwidth (pyStrip x) c
      (mem_removeFirstSuffix suffixes (replaceParens (pyStrip x)) c hc)
  show removeFirstSuffix suffixes (replaceParens (pyStrip (clean_company_name x)))
      = clean_company_name x
  rw [h1, replaceParens_eq_self _ hpar, removeFirstSuffix_no_match _ _ h2]

/-- Witness for the amended C4 at a normalized input. -/
theorem C4_normalizer_idempotent_witness :
    clean_company_name (clean_company_name (str "乙")) = clean_company_name (str "乙") :=
  C4_normalizer_idempotent (str "乙") (by decide) (by decide)

/-- C5: For every input name, the Name Normalizer trims surrounding
whitespace, replaces full-width parentheses with half-width ones, and
removes exactly one trailing suffix: it scans the fixed list
[股份有限公司, 有限公司, 分公司, 社團法人, 財團法人, 有限合夥] in that
order and strips only the first suffix the (trimmed, parenthesis-
normalized) name ends with, stopping the scan; when no suffix matches the
result equals the trimmed, parenthesis-normalized input; and the function
always returns (total, no error). -/
theorem C5_normalizer (x : Str) :
    ((∀ suf ∈ suffixes, suf.isSuffixOf (replaceParens (pyStrip x)) = false) →
      clean_company_name x = replaceParens (pyStrip x))
    ∧ (∀ L1 suf L2, suffixes = L1 ++ suf :: L2 →
        (∀ s' ∈ L1, s'.isSuffixOf (replaceParens (pyStrip x)) = false) →
        suf.isSuffixOf (replaceParens (pyStrip x)) = true →
        clean_company_name x ++ suf = replaceParens (pyStrip x))
    ∧ (clean_company_name x = replaceParens (pyStrip x) ∨
        ∃ suf ∈ suffixes, clean_company_name x ++ suf = replaceParens (pyStrip x)) := by
  refine ⟨?_, ?_, ?_⟩
  · intro h
    exact removeFirstSuffix_no_match _ _ h
  · intro L1 suf L2 hspl h1 h2
    show removeFirstSuffix suffixes (replaceParens (pyStrip x)) ++ suf
        = replaceParens (pyStrip x)
    rw [hspl]
    exact removeFirstSuffix_first L1 suf L2 _ h1 h2
  · exact removeFirstSuffix_cases suffixes (replaceParens (pyStrip x))

/-- Witness for C5: `股份有限公司` is the first matching suffix of the
example name and is the one stripped. -/
theorem C5_normalizer_witness :
    clean_company_name (str " 台積電股份有限公司") ++ str "股份有限公司"
      = replaceParens (pyStrip (str " 台積電股份有限公司")) :=
  (C5_normalizer (str " 台積電股份有限公司")).2.1 [] (str "股份有限公司")
    [str "有限公司", str "分公司", str "社團法人", str "財團法人", str "有限合夥"]
    rfl (by simp) (by decide)

/-- C6 counterexample: a dict date with all of year/month/day missing (a
"missing date") does not convert to the empty string — the fields default
to 0 and render as zeros. -/
theorem C6_counterexample :
    format_date_roc (.dict []) = str "000年00月00日" ∧
    format_date_roc (.dict []) ≠ [] := by decide

/-- C6 (amended): the date converter maps {year:2024, month:3, day:5} to
"113年03月05日"; in general a {year, month, day} dict whose fields convert
to integers y, m, d is rendered with the year offset by 1911 only when
y > 1911 and with zero-padded two-digit month and day; a dict any of whose
fields fails integer conversion yields the empty string (no exception
escapes); but a field missing from the dict defaults to 0 (so a dict with
missing fields renders zeros rather than the empty string). -/
theorem C6_date_conversion (fields : List (Str × PyVal)) (y m d : Int) :
    (pyIntOf (dictGet fields (str "year") (.int 0)) = some y →
     pyIntOf (dictGet fields (str "month") (.int 0)) = some m →
     pyIntOf (dictGet fields (str "day") (.int 0)) = some d →
     format_date_roc (.dict fields) =
       padInt 3 (if y > 1911 then y - 1911 else y) ++ str "年" ++ padInt 2 m ++
         str "月" ++ padInt 2 d ++ str "日")
    ∧ (pyIntOf (dictGet fields (str "year") (.int 0)) = Option.none →
        format_date_roc (.dict fields) = [])
    ∧ (pyIntOf (dictGet fields (str "month") (.int 0)) = Option.none →
        format_date_roc (.dict fields) = [])
    ∧ (pyIntOf (dictGet fields (str "day") (.int 0)) = Option.none →
        format_date_roc (.dict fields) = [])
    ∧ format_date_roc (.dict [(str "year", .int 2024), (str "month", .int 3),
        (str "day", .int 5)]) = str "113年03月05日" := by
  refine ⟨?_, ?_, ?_, ?_, by decide⟩
  · intro hy hm hd
    simp only [format_date_roc, hy, hm, hd]
  · intro h
    simp only [format_date_roc, h]
  · intro h
    cases h1 : pyIntOf (dictGet fields (str "year") (.int 0)) <;>
      simp only [format_date_roc, h, h1]
  · intro h
    cases h1 : pyIntOf (dictGet fields (str "year") (.int 0)) <;>
      cases h2 : pyIntOf (dictGet fields (str "month") (.int 0)) <;>
        simp only [format_date_roc, h, h1, h2]

/-- Witness for C6 at the spec's example date. -/
theorem C6_date_conversion_witness :
    format_date_roc (.dict [(str "year", .int 2024), (str "month", .int 3),
        (str "day", .int 5)]) =
      padInt 3 (if (2024 : Int) > 1911 then 2024 - 1911 else 2024) ++ str "年" ++
        padInt 2 3 ++ str "月" ++ padInt 2 5 ++ str "日" :=
  (C6_date_conversion [(str "year", .int 2024), (str "month", .int 3),
      (str "day", .int 5)] 2024 3 5).1 rfl rfl rfl

/-- C3 counterexample: a string of eight FULLWIDTH digits also takes the
direct-identifier bypass (`str.isdigit` accepts non-ASCII Unicode digits),
so "exactly 8 ASCII digits" is not necessary for the bypass; the strategy
is 統編直查 under both a failing and a succeeding search oracle, showing
resolution is skipped. -/
theorem C3_counterexample :
    rowStrategy oracleNone (str "２２０９９１３１") (str "甲") =
      some (str "２２０９９１３１", str "統編直查")
    ∧ rowStrategy oracleConst (str "２２０９９１３１") (str "甲") =
      some (str "２２０９９１３１", str "統編直查")
    ∧ ¬(∀ c ∈ str "２２０９９１３１", '0' ≤ c ∧ c ≤ '9') := by
  refine ⟨?_, ?_, by decide⟩
  · unfold rowStrategy
    rw [if_pos (by decide)]
  · unfold rowStrategy
    rw [if_pos (by decide)]

/-- C3 (amended): the direct-identifier bypass (strategy = 統編直查,
resolution skipped, identifier passed straight to the Detail Fetcher
regardless of any name field) is taken if and only if the identifier cell
consists of exactly 8 characters accepted by Python `str.isdigit()` —
Unicode digit characters, of which ASCII digits are the typical (but not
the only) case. -/
theorem C3_direct_bypass (f g : Source → Str → Option Str)
    (fetchD : Str → Option (List (Str × PyVal) × PyVal)) (i : Nat)
    (cid cname : Option Str) :
    (isDirect8 (cleanCell cid) = true ↔
      ((cleanCell cid).length = 8 ∧ ∀ c ∈ cleanCell cid, pyIsDigitChar c = true))
    ∧ (((cleanCell cid).length = 8 ∧ ∀ c ∈ cleanCell cid, '0' ≤ c ∧ c ≤ '9') →
        isDirect8 (cleanCell cid) = true)
    ∧ (isDirect8 (cleanCell cid) = true →
        rowStrategy f (cleanCell cid) (cleanCell cname) =
          some (cleanCell cid, str "統編直查")
        ∧ processRow f fetchD i cid cname = processRow g fetchD i cid cname
        ∧ (fetchD (cleanCell cid) = Option.none →
            processRow f fetchD i cid cname =
              some (noApiRow i (cleanCell cid) (str "統編直查") (cleanCell cname), []))) := by
  have hiff : isDirect8 (cleanCell cid) = true ↔
      ((cleanCell cid).length = 8 ∧ ∀ c ∈ cleanCell cid, pyIsDigitChar c = true) := by
    constructor
    · intro h
      simp only [isDirect8, pyStrIsDigit, Bool.and_eq_true, Bool.not_eq_true',
        List.all_eq_true, beq_iff_eq] at h
      exact ⟨h.2, h.1.2⟩
    · rintro ⟨hl, hd⟩
      have hne : (cleanCell cid).isEmpty = false := by
        cases hc : cleanCell cid with
        | nil => rw [hc] at hl; simp at hl
        | cons a t => rfl
      simp only [isDirect8, pyStrIsDigit, Bool.and_eq_true, Bool.not_eq_true',
        List.all_eq_true, beq_iff_eq]
      exact ⟨⟨hne, hd⟩, hl⟩
  refine ⟨hiff, ?_, ?_⟩
  · rintro ⟨hl, hd⟩
    apply hiff.mpr
    refine ⟨hl, fun c hc => ?_⟩
    have h' := hd c hc
    simp only [pyIsDigitChar, Bool.or_eq_true, decide_eq_true_eq, Bool.and_eq_true]
    tauto
  · intro h
    have hstrat : ∀ f' : Source → Str → Option Str,
        rowStrategy f' (cleanCell cid) (cleanCell cname) =
          some (cleanCell cid, str "統編直查") := by
      intro f'
      unfold rowStrategy
      rw [if_pos h]
    refine ⟨hstrat f, ?_, ?_⟩
    · simp only [processRow, hstrat f, hstrat g]
    · intro hfetch
      simp only [processRow, hstrat f, hfetch]

/-- Witness for C3 (amended): an 8-ASCII-digit identifier takes the bypass
and, when the fetch fails, yields the no-API sentinel row for it. -/
theorem C3_direct_bypass_witness :
    rowStrategy oracleNone (cleanCell (some (str "22099131")))
        (cleanCell (some (str "台積電"))) =
      some (cleanCell (some (str "22099131")), str "統編直查")
    ∧ processRow oracleNone fetchNone 0 (some (str "22099131"))
        (some (str "台積電")) =
      some (noApiRow 0 (cleanCell (some (str "22099131"))) (str "統編直查")
        (cleanCell (some (str "台積電"))), []) := by
  have h := (C3_direct_bypass oracleNone oracleConst fetchNone 0
    (some (str "22099131")) (some (str "台積電"))).2.2 (by decide)
  exact ⟨h.1, h.2.2 rfl⟩

/-- The official-registry detail path never carries directors. -/
theorem moeaDetail_directors (resp : Option PyVal) (r : List (Str × PyVal) × PyVal)
    (h : moeaDetail resp = some r) : r.2 = PyVal.list [] := by
  unfold moeaDetail at h
  split at h
  · injection h with h'
    rw [← h']
  · exact Option.noConfusion h

/-- C8: For every identifier, the Detail Fetcher first tries the
community-mirror detail endpoint and, on failure or empty result, falls
back to the official registry detail endpoint filtered by exact
identifier; the official-registry path always returns an empty director
list; when both paths fail the result is (absent, absent). -/
theorem C8_detail_fetcher (g0vShow moeaD moeaD2 : Str → Option PyVal) (tax_id : Str) :
    (∀ r, g0vDetail (g0vShow tax_id) = some r →
      fetch_company_data g0vShow moeaD tax_id = some r
      ∧ fetch_company_data g0vShow moeaD tax_id
          = fetch_company_data g0vShow moeaD2 tax_id)
    ∧ (g0vDetail (g0vShow tax_id) = Option.none →
        ∀ item rest, moeaD tax_id = some (.list (.dict item :: rest)) →
          fetch_company_data g0vShow moeaD tax_id = some (moeaDetailMap item, .list []))
    ∧ (∀ r, fetch_company_data g0vShow moeaD tax_id = some r →
        g0vDetail (g0vShow tax_id) = Option.none → r.2 = PyVal.list [])
    ∧ (g0vDetail (g0vShow tax_id) = Option.none → moeaD tax_id = Option.none →
        fetch_company_data g0vShow moeaD tax_id = Option.none)
    ∧ (g0vShow tax_id = Option.none → g0vDetail (g0vShow tax_id) = Option.none)
    ∧ (∀ dd, g0vShow tax_id = some (.dict dd) →
        dictLookup dd (str "data") = some (.dict []) →
        g0vDetail (g0vShow tax_id) = Option.none) := by
  refine ⟨?_, ?_, ?_, ?_, ?_, ?_⟩
  · intro r hr
    constructor
    · simp only [fetch_company_data, hr]
    · simp only [fetch_company_data, hr]
  · intro hg item rest hm
    simp only [fetch_company_data, hg, moeaDetail, hm]
  · intro r hr hg
    simp only [fetch_company_data, hg] at hr
    exact moeaDetail_directors (moeaD tax_id) r hr
  · intro hg hm
    simp only [fetch_company_data, hg, moeaDetail, hm]
  · intro h
    simp [g0vDetail, h]
  · intro dd hg hd
    simp [g0vDetail, hg, hd]

/-- Witness for C8: when the mirror endpoint fails, the official response
is mapped into the narrow schema with an empty director list. -/
theorem C8_detail_fetcher_witness :
    fetch_company_data g0vRespNone moeaRespConst (str "22099131") =
      some (moeaDetailMap
        [(str "Business_Accounting_NO", .str (str "22099131")),
         (str "Company_Name", .str (str "台灣積體電路製造股份有限公司"))],
        .list []) :=
  (C8_detail_fetcher g0vRespNone moeaRespConst moeaRespConst (str "22099131")).2.1
    rfl _ [] rfl

/-- Tagging succeeds on any list of director dicts. -/
theorem mapM_dicts (tid : Str) (cName : PyVal) (ds : List PyVal)
    (h : ds.all isDictVal = true) :
    ∃ out, (ds.mapM fun d =>
      match d with
      | PyVal.dict dd =>
        some (dictSet (dictSet dd (str "所屬公司統編") (.str tid))
          (str "所屬公司名稱") cName)
      | _ => Option.none) = some out := by
  induction ds with
  | nil => exact ⟨[], rfl⟩
  | cons a t ih =>
    simp only [List.all_cons, Bool.and_eq_true] at h
    cases a with
    | dict dd =>
      obtain ⟨out, hout⟩ := ih h.2
      refine ⟨dictSet (dictSet dd (str "所屬公司統編") (.str tid))
        (str "所屬公司名稱") cName :: out, ?_⟩
      rw [List.mapM_cons, hout]
      rfl
    | str s => exact Bool.noConfusion h.1
    | int n => exact Bool.noConfusion h.1
    | list l => exact Bool.noConfusion h.1
    | none => exact Bool.noConfusion h.1

/-- Director processing succeeds on every well-formed director value. -/
theorem processDirs_total (tid : Str) (cName : PyVal) (dirs : PyVal)
    (h : dirsOK dirs = true) : ∃ ds, processDirs tid cName dirs = some ds := by
  unfold processDirs
  by_cases ht : pyTruthy dirs = true
  · rw [if_pos ht]
    unfold dirsOK at h
    rw [ht] at h
    simp only [Bool.not_true, Bool.false_or] at h
    cases dirs with
    | list ds => exact mapM_dicts tid cName ds h
    | str s => simp at h
    | int n => simp at h
    | dict d => simp at h
    | none => simp at h
  · rw [if_neg ht]
    exact ⟨[], rfl⟩

/-- Every row produces exactly one output row, carrying its 1-based row
number in the `項目` field, whenever the fetched director values are
well-formed. -/
theorem processRow_total (f : Source → Str → Option Str)
    (fetchD : Str → Option (List (Str × PyVal) × PyVal))
    (hW : ∀ t r, fetchD t = some r → dirsOK r.2 = true)
    (i : Nat) (cid cname : Option Str) :
    ∃ row ds, processRow f fetchD i cid cname = some (row, ds) ∧
      dictLookup row (str "項目") = some (.int (i + 1)) := by
  cases hs : rowStrategy f (cleanCell cid) (cleanCell cname) with
  | none =>
    refine ⟨unrecognizedRow i (cleanCell cid) (cleanCell cname), [], ?_, ?_⟩
    · simp only [processRow, hs]
    · simp [unrecognizedRow, dictLookup]
  | some tm =>
    obtain ⟨tid, method⟩ := tm
    cases hf : fetchD tid with
    | none =>
      refine ⟨noApiRow i tid method (cleanCell cname), [], ?_, ?_⟩
      · simp only [processRow, hs, hf]
      · simp [noApiRow, dictLookup]
    | some cd =>
      obtain ⟨c, dirs⟩ := cd
      by_cases hc : c.isEmpty = true
      · refine ⟨noApiRow i tid method (cleanCell cname), [], ?_, ?_⟩
        · simp only [processRow, hs, hf]
          rw [if_pos hc]
        · simp [noApiRow, dictLookup]
      · obtain ⟨ds, hds⟩ :=
          processDirs_total tid (dictGet c (str "公司名稱") (.str [])) dirs
            (hW tid (c, dirs) hf)
        refine ⟨successRow i tid c method (cleanCell cid) (cleanCell cname), ds, ?_, ?_⟩
        · simp only [processRow, hs, hf, hds]
          rw [if_neg hc]
        · simp [successRow, dictLookup]

/-- The batch loop from index `i` always completes with one output row per
input row, in order, under well-formed director values. -/
theorem batchLoopAux_spec (f : Source → Str → Option Str)
    (fetchD : Str → Option (List (Str × PyVal) × PyVal))
    (hW : ∀ t r, fetchD t = some r → dirsOK r.2 = true) :
    ∀ (rows : List (Option Str × Option Str)) (i : Nat),
      ∃ base dirAcc, batchLoopAux f fetchD i rows = some (base, dirAcc) ∧
        base.length = rows.length ∧
        ∀ k (hk : k < base.length),
          dictLookup (base.get ⟨k, hk⟩) (str "項目") = some (.int (i + k + 1)) := by
  intro rows
  induction rows with
  | nil =>
    intro i
    refine ⟨[], [], rfl, rfl, ?_⟩
    intro k hk
    simp at hk
  | cons rc rest ih =>
    intro i
    obtain ⟨cid, cname⟩ := rc
    obtain ⟨row, ds, hrow, hit⟩ := processRow_total f fetchD hW i cid cname
    obtain ⟨base, dirAcc, hb, hlen, hitem⟩ := ih (i + 1)
    refine ⟨row :: base, ds ++ dirAcc, ?_, ?_, ?_⟩
    · simp [batchLoopAux, hrow, hb]
    · simp [hlen]
    · intro k hk
      cases k with
      | zero => simpa using hit
      | succ k' =>
        have hk' : k' < base.length := by
          simpa using Nat.lt_of_succ_lt_succ (by simpa using hk)
        have h' := hitem k' hk'
        have hg : (row :: base).get ⟨k' + 1, hk⟩ = base.get ⟨k', hk'⟩ := rfl
        have he : ((i + 1 : Nat) : Int) + (k' : Int) + 1
            = (i : Int) + ((k' + 1 : Nat) : Int) + 1 := by push_cast; ring
        rw [hg, h', he]

/-- C7: For every input sequence of N rows, the Batch Reconciler emits
exactly N ReconciledRow entries, one per input row in input order (the
`項目` field of the k-th output row is k+1), even when every row fails
resolution or detail fetch; director values fetched along the way are
assumed well-formed (falsy or a list of dicts), the only shapes the Python
loop itself survives. -/
theorem C7_batch_cardinality (f : Source → Str → Option Str)
    (fetchD : Str → Option (List (Str × PyVal) × PyVal))
    (rows : List (Option Str × Option Str))
    (hW : ∀ t r, fetchD t = some r → dirsOK r.2 = true) :
    ∃ base dirAcc, reconcileBatch f fetchD rows = some (base, dirAcc) ∧
      base.length = rows.length ∧
      ∀ k (hk : k < base.length),
        dictLookup (base.get ⟨k, hk⟩) (str "項目") = some (.int (k + 1)) := by
  obtain ⟨base, dirAcc, hb, hlen, hitem⟩ := batchLoopAux_spec f fetchD hW rows 0
  exact ⟨base, dirAcc, hb, hlen, fun k hk => by simpa using hitem k hk⟩

/-- Witness for C7: a two-row batch in which every stage fails still emits
exactly two rows, numbered 1 and 2. -/
theorem C7_batch_cardinality_witness :
    ∃ base dirAcc,
      reconcileBatch oracleNone fetchNone
        [(some (str "22099131"), Option.none), (Option.none, Option.none)]
        = some (base, dirAcc) ∧
      base.length = 2 ∧
      ∀ k (hk : k < base.length),
        dictLookup (base.get ⟨k, hk⟩) (str "項目") = some (.int (k + 1)) :=
  C7_batch_cardinality oracleNone fetchNone
    [(some (str "22099131"), Option.none), (Option.none, Option.none)]
    (fun t r h => by simp [fetchNone] at h)

/-- C9: For every batch row: when an identifier was obtained but the
Detail Fetcher returns nothing, the emitted row carries the sentinel
`API無回應` name field while preserving that identifier and the strategy
label; when no identifier could be obtained at all, the emitted row
carries the sentinel `無法識別` name field and preserves the original raw
inputs; in both cases the batch continues to the next row. -/
theorem C9_batch_sentinels (f : Source → Str → Option Str)
    (fetchD : Str → Option (List (Str × PyVal) × PyVal)) (i : Nat)
    (cid cname : Option Str) (rest : List (Option Str × Option Str)) :
    (∀ tid method, rowStrategy f (cleanCell cid) (cleanCell cname) = some (tid, method) →
      fetchD tid = Option.none →
      processRow f fetchD i cid cname =
        some (noApiRow i tid method (cleanCell cname), []))
    ∧ (rowStrategy f (cleanCell cid) (cleanCell cname) = Option.none →
        processRow f fetchD i cid cname =
          some (unrecognizedRow i (cleanCell cid) (cleanCell cname), []))
    ∧ (∀ tid method rname,
        dictLookup (noApiRow i tid method rname) (str "公司名稱") =
          some (.str (str "API無回應"))
        ∧ dictLookup (noApiRow i tid method rname) (str "統一編號") = some (.str tid)
        ∧ dictLookup (noApiRow i tid method rname) (str "查詢來源") = some (.str method)
        ∧ dictLookup (noApiRow i tid method rname) (str "原始輸入名稱") = some (.str rname))
    ∧ (∀ rid rname,
        dictLookup (unrecognizedRow i rid rname) (str "公司名稱") =
          some (.str (str "無法識別"))
        ∧ dictLookup (unrecognizedRow i rid rname) (str "統一編號") = some (.str rid)
        ∧ dictLookup (unrecognizedRow i rid rname) (str "原始輸入名稱") = some (.str rname))
    ∧ (∀ row ds, processRow f fetchD i cid cname = some (row, ds) →
        batchLoopAux f fetchD i ((cid, cname) :: rest) =
          (match batchLoopAux f fetchD (i + 1) rest with
           | some (base, dirAcc) => some (row :: base, ds ++ dirAcc)
           | Option.none => Option.none)) := by
  refine ⟨?_, ?_, ?_, ?_, ?_⟩
  · intro tid method hs hf
    simp only [processRow, hs, hf]
  · intro hs
    simp only [processRow, hs]
  · intro tid method rname
    exact ⟨rfl, rfl, rfl, rfl⟩
  · intro rid rname
    exact ⟨rfl, rfl, rfl⟩
  · intro row ds hres
    simp only [batchLoopAux, hres]

/-- Witness for C9: a row with an unresolvable name yields the
`無法識別` sentinel row and an empty director contribution. -/
theorem C9_batch_sentinels_witness :
    processRow oracleNone fetchNone 0 (some (str "abc")) Option.none =
      some (unrecognizedRow 0 (cleanCell (some (str "abc"))) (cleanCell Option.none), []) :=
  (C9_batch_sentinels oracleNone fetchNone 0 (some (str "abc")) Option.none []).2.1 rfl

/-! ## Sanity checks on concrete inputs (spec §8 examples) -/

/-- Exact match has priority over a longer superstring listed first. -/
theorem sanity_rank_exact :
    rank (str "台積電")
      [⟨str "1", str "台積電控股"⟩, ⟨str "2", str "台積電"⟩] = some (str "2") := by
  decide

/-- Shortest containing name wins when no exact match exists. -/
theorem sanity_rank_substring :
    rank (str "台積") [⟨str "1", str "台積電子"⟩] = some (str "1") := by
  rw [rank_eq_rankEval]; decide

/-- Blind first-candidate fallback when no candidate contains the target. -/
theorem sanity_rank_fallback :
    rank (str "富世達")
      [⟨str "1", str "大富世"⟩, ⟨str "9", str "光洋"⟩] = some (str "1") := by
  rw [rank_eq_rankEval]; decide

/-- Length ties between containing names break by original list order. -/
theorem sanity_rank_stable_tie :
    rank (str "台積")
      [⟨str "1", str "甲台積"⟩, ⟨str "2", str "台積乙"⟩] = some (str "1") := by
  rw [rank_eq_rankEval]; decide

/-- Normalizer: trimming, suffix stripping and parenthesis replacement. -/
theorem sanity_clean_company_name :
    clean_company_name (str " 台積電股份有限公司 ") = str "台積電"
    ∧ clean_company_name (str "乙（台灣）") = str "乙(台灣)"
    ∧ clean_company_name (str "甲 有限公司") = str "甲 " := by
  decide

/-- Date conversion: string-typed fields convert too; a non-numeric field
degrades to the empty string. -/
theorem sanity_format_date_roc :
    format_date_roc (.dict [(str "year", .str (str "2024")), (str "month", .int 3),
      (str "day", .int 5)]) = str "113年03月05日"
    ∧ format_date_roc (.dict [(str "year", .str (str "abc"))]) = [] := by
  decide

end DD
